import Mathlib

/-!
Shallow embedding of the decision-intelligence backend
(`src/backend/main.py`, endpoint handler `run_simulation`).

Numeric modelling: Python floats are modelled as exact rationals (every
finite IEEE float is a rational) for all arithmetic that stays rational,
and as real numbers where `math.sqrt` enters; `random.gauss` samples are
modelled by an oracle `draws : ℕ → ℕ → ℝ` giving the raw (pre-floor)
sample for each (run, period) cell.  Python `round(x, n)` is modelled as
rounding `x * 10^n` to the nearest integer and dividing back.
-/

/-- Python `class Scenario(BaseModel)` from `main.py`, pydantic defaults
included (`demand` and `lead_time` are `int`, the rest `float`/`str`). -/
structure Scenario where
  demand : ℤ
  lead_time : ℤ
  cost : ℚ
  scenario_type : String := "base"
  ordering_cost : ℚ := 50.0
  holding_cost : ℚ := 2.0
  service_target : ℚ := 0.95
  demand_std : ℚ := 10.0

/-- Python `round(x, n)` on rationals: round to `n` decimal places. -/
def roundTo (n : ℕ) (x : ℚ) : ℚ := ((round (x * 10 ^ n) : ℤ) : ℚ) / 10 ^ n

/-- Python `round(x, n)` on reals (for the `math.sqrt`-valued quantities). -/
noncomputable def roundToR (n : ℕ) (x : ℝ) : ℝ :=
  ((round (x * 10 ^ n) : ℤ) : ℝ) / 10 ^ n

/-- `z_map.get(target_rounded, 1.65)` with
`z_map = {0.90: 1.28, 0.95: 1.65, 0.97: 1.88, 0.99: 2.33}` (main.py line 55–57). -/
def z_map_get (target_rounded : ℚ) : ℚ :=
  if target_rounded = 0.90 then 1.28
  else if target_rounded = 0.95 then 1.65
  else if target_rounded = 0.97 then 1.88
  else if target_rounded = 0.99 then 2.33
  else 1.65

/-- `z = z_map.get(round(scenario.service_target, 2), 1.65)`. -/
def z_of (s : Scenario) : ℚ := z_map_get (roundTo 2 s.service_target)

/-- `service_map.get(scenario.scenario_type.lower(), 0.95)` with
`service_map = {"optimistic": 0.98, "base": 0.95, "pessimistic": 0.90}`. -/
def service_map_get (ty : String) : ℚ :=
  if ty = "optimistic" then 0.98
  else if ty = "base" then 0.95
  else if ty = "pessimistic" then 0.90
  else 0.95

def service_level (s : Scenario) : ℚ := service_map_get s.scenario_type.toLower

/-- `total_cost = scenario.demand * scenario.cost`. -/
def total_cost (s : Scenario) : ℚ := (s.demand : ℚ) * s.cost

/-- `expected_delay = scenario.lead_time * 0.5`. -/
def expected_delay (s : Scenario) : ℚ := (s.lead_time : ℚ) * 0.5

/-- The argument of `math.sqrt` in the EOQ formula:
`(2 * scenario.demand * scenario.ordering_cost) / max(scenario.holding_cost, 0.0001)`. -/
def eoq_radicand (s : Scenario) : ℚ :=
  2 * (s.demand : ℚ) * s.ordering_cost / max s.holding_cost 0.0001

/-- `eoq = math.sqrt((2 * demand * ordering_cost) / max(holding_cost, 0.0001))`. -/
noncomputable def eoq (s : Scenario) : ℝ := Real.sqrt ((eoq_radicand s : ℚ) : ℝ)

/-- `safety_stock = z * demand_std * math.sqrt(max(lead_time, 1))`. -/
noncomputable def safety_stock (s : Scenario) : ℝ :=
  ((z_of s : ℚ) : ℝ) * ((s.demand_std : ℚ) : ℝ) *
    Real.sqrt (((max s.lead_time 1 : ℤ) : ℝ))

/-- `daily_demand = scenario.demand / max(scenario.lead_time, 1)`. -/
def daily_demand (s : Scenario) : ℚ := (s.demand : ℚ) / ((max s.lead_time 1 : ℤ) : ℚ)

/-- `reorder_point = daily_demand * scenario.lead_time + safety_stock`. -/
noncomputable def reorder_point (s : Scenario) : ℝ :=
  ((daily_demand s : ℚ) : ℝ) * (s.lead_time : ℝ) + safety_stock s

/-- The trend growth rate: `growth = 0.02 if type == "optimistic" else 0.0`,
then `if type == "pessimistic": growth = -0.02` (types lower-cased). -/
def growth (s : Scenario) : ℚ :=
  let g := if s.scenario_type.toLower = "optimistic" then 0.02 else 0.0
  if s.scenario_type.toLower = "pessimistic" then -0.02 else g

def horizon : ℕ := 12

/-- The forecast loop: `current = scenario.demand`;
for `t in range(horizon)`: append `round(current * (1 + growth * t), 2)`. -/
def forecast (s : Scenario) : List ℚ :=
  (List.range horizon).map (fun t : ℕ => roundTo 2 ((s.demand : ℚ) * (1 + growth s * (t : ℚ))))

section MonteCarlo

variable {α : Type} [LinearOrderedRing α]

/-- One period of the Monte-Carlo inner loop (main.py lines 88–97):
`demand_real = max(0.0, random.gauss(...)); inv -= demand_real;`
`if inv <= 0: stockout_events += 1; inv = 0`; the recorded level is the
post-clamp `inv` and the second component is the stockout increment. -/
def simStep (inv d : α) : α × ℕ :=
  let demand_real := max 0 d
  let inv1 := inv - demand_real
  if inv1 ≤ 0 then (0, 1) else (inv1, 0)

/-- The per-run loop `for t in range(horizon)` unrolled as recursion on the
number of remaining periods: `simLoop d inv t n` runs periods
`t, t+1, …, t+n-1` from inventory `inv`, where `d t` is the raw gauss
sample of period `t`; it returns the recorded path and the number of
stockout events of those periods. -/
def simLoop (d : ℕ → α) : α → ℕ → ℕ → List α × ℕ
  | _, _, 0 => ([], 0)
  | inv, t, Nat.succ n =>
    let st := simStep inv (d t)
    let rest := simLoop d st.1 (t + 1) n
    (st.1 :: rest.1, st.2 + rest.2)

end MonteCarlo

def num_runs : ℕ := 300

def total_points : ℕ := num_runs * horizon

/-- `starting_inventory = scenario.demand + safety_stock`. -/
noncomputable def starting_inventory (s : Scenario) : ℝ :=
  (s.demand : ℝ) + safety_stock s

/-- One run of the Monte-Carlo simulation: path and stockout count of run `r`. -/
noncomputable def runPath (s : Scenario) (draws : ℕ → ℕ → ℝ) (r : ℕ) : List ℝ × ℕ :=
  simLoop (draws r) (starting_inventory s) 0 horizon

/-- The 300 simulated paths, in run order. -/
noncomputable def mcPaths (s : Scenario) (draws : ℕ → ℕ → ℝ) : List (List ℝ) :=
  (List.range num_runs).map (fun r => (runPath s draws r).1)

/-- `stockout_events` accumulated over all runs (the code adds them inside
the run loop; summing per-run counts is the same order-independent total). -/
noncomputable def stockout_events (s : Scenario) (draws : ℕ → ℕ → ℝ) : ℕ :=
  ((List.range num_runs).map (fun r => (runPath s draws r).2)).sum

/-- `if run < 20: inventory_paths.append(path)`: the first 20 runs' paths.
Computed by the handler but not included in the returned dict. -/
noncomputable def inventory_paths (s : Scenario) (draws : ℕ → ℕ → ℝ) : List (List ℝ) :=
  (mcPaths s draws).take 20

/-- The column of period `t`: every run's recorded level at period `t`. -/
noncomputable def levels_at (s : Scenario) (draws : ℕ → ℕ → ℝ) (t : ℕ) : List ℝ :=
  (mcPaths s draws).map (fun p => p.getD t 0)

/-- `sum_levels[t] += inv` accumulated over the runs, per period. -/
noncomputable def sum_levels (s : Scenario) (draws : ℕ → ℕ → ℝ) : List ℝ :=
  (List.range horizon).map (fun t => (levels_at s draws t).sum)

/-- `avg_levels = [s / num_runs for s in sum_levels]`. -/
noncomputable def avg_levels (s : Scenario) (draws : ℕ → ℕ → ℝ) : List ℝ :=
  (sum_levels s draws).map (fun x => x / (num_runs : ℝ))

/-- Minimum of a list of reals.  Models the `min_levels[t]` update loop of
main.py (initial value `float("inf")`, `if inv < min_levels[t]` per run):
with `num_runs = 300 ≥ 1` the sentinel is always overwritten by run 0, so
the final cell value is the minimum over the nonempty list of run values;
the `[]` case is unreachable in the program. -/
def listMin : List ℝ → ℝ
  | [] => 0
  | x :: xs => xs.foldl min x

/-- Maximum of a list of reals; models the `max_levels[t]` update loop
(initial value `float("-inf")`), as for `listMin`. -/
def listMax : List ℝ → ℝ
  | [] => 0
  | x :: xs => xs.foldl max x

/-- `min_levels` after the run loop (= `lower_band`). -/
noncomputable def min_levels (s : Scenario) (draws : ℕ → ℕ → ℝ) : List ℝ :=
  (List.range horizon).map (fun t => listMin (levels_at s draws t))

/-- `max_levels` after the run loop (= `upper_band`). -/
noncomputable def max_levels (s : Scenario) (draws : ℕ → ℕ → ℝ) : List ℝ :=
  (List.range horizon).map (fun t => listMax (levels_at s draws t))

/-- `stockout_probability = stockout_events / max(total_points, 1)`. -/
noncomputable def stockout_probability (s : Scenario) (draws : ℕ → ℕ → ℝ) : ℝ :=
  (stockout_events s draws : ℝ) / ((max total_points 1 : ℕ) : ℝ)

/-- The risk classifier (main.py lines 115–120). -/
noncomputable def risk_level (s : Scenario) (draws : ℕ → ℕ → ℝ) : String :=
  if stockout_probability s draws < 0.1 then "low"
  else if stockout_probability s draws < 0.3 then "medium"
  else "high"

/-- The shape of the JSON object the handler returns (main.py lines 122–135). -/
structure SimulationResult where
  total_cost : ℚ
  expected_delay : ℚ
  service_level : ℚ
  eoq : ℝ
  safety_stock : ℝ
  reorder_point : ℝ
  forecast : List ℚ
  inventory_avg : List ℝ
  inventory_lower : List ℝ
  inventory_upper : List ℝ
  stockout_probability : ℝ
  risk_level : String

/-- The response assembly of `run_simulation` (rounding as in the source). -/
noncomputable def run_simulation (s : Scenario) (draws : ℕ → ℕ → ℝ) : SimulationResult where
  total_cost := roundTo 2 (total_cost s)
  expected_delay := roundTo 2 (expected_delay s)
  service_level := roundTo 3 (service_level s)
  eoq := roundToR 2 (eoq s)
  safety_stock := roundToR 2 (safety_stock s)
  reorder_point := roundToR 2 (reorder_point s)
  forecast := forecast s
  inventory_avg := avg_levels s draws
  inventory_lower := min_levels s draws
  inventory_upper := max_levels s draws
  stockout_probability := roundToR 3 (stockout_probability s draws)
  risk_level := risk_level s draws

/-- The keys of the dict literal the handler returns, in source order. -/
def response_keys : List String :=
  ["total_cost", "expected_delay", "service_level", "eoq", "safety_stock",
   "reorder_point", "forecast", "inventory_avg", "inventory_lower",
   "inventory_upper", "stockout_probability", "risk_level"]

/-- Modelled from the spec's words (§3 SimulationResult field list), for
refinement comparison against `response_keys`. -/
def spec_result_fields : List String :=
  ["total_cost", "expected_delay", "service_level", "eoq", "safety_stock",
   "reorder_point", "stockout_probability", "risk_level", "forecast",
   "inventory_avg", "inventory_lower", "inventory_upper", "inventory_paths"]

/-! ### Helper lemmas about the Monte-Carlo step and loop -/

section SimLemmas

variable {α : Type} [LinearOrderedRing α]

theorem simStep_eq (inv d : α) :
    simStep inv d = if inv - max 0 d ≤ 0 then ((0 : α), 1) else (inv - max 0 d, 0) := rfl

theorem simStep_fst_nonneg (inv d : α) : 0 ≤ (simStep inv d).1 := by
  rw [simStep_eq]
  split
  · exact le_refl 0
  · next h => exact le_of_lt (not_le.mp h)

theorem simStep_fst_le (inv d : α) (h : 0 ≤ inv) : (simStep inv d).1 ≤ inv := by
  rw [simStep_eq]
  split
  · exact h
  · exact sub_le_self inv (le_max_left 0 d)

theorem simStep_snd_le_one (inv d : α) : (simStep inv d).2 ≤ 1 := by
  rw [simStep_eq]
  split <;> simp

theorem simStep_snd_eq_one_iff (inv d : α) :
    (simStep inv d).2 = 1 ↔ inv - max 0 d ≤ 0 := by
  rw [simStep_eq]
  split <;> simp_all

theorem simStep_fst_of_nonpos (inv d : α) (h : inv - max 0 d ≤ 0) :
    (simStep inv d).1 = 0 := by
  rw [simStep_eq]
  split <;> simp_all

theorem simStep_snd_of_fst_ne (inv d : α) (h : (simStep inv d).1 ≠ 0) :
    (simStep inv d).2 = 0 := by
  rw [simStep_eq] at h ⊢
  split at h
  · simp_all
  · next hc => rw [if_neg hc]

theorem simStep_zero (d : α) : simStep 0 d = (0, 1) := by
  rw [simStep_eq, if_pos]
  simp

theorem simLoop_length (d : ℕ → α) (inv : α) (t n : ℕ) :
    (simLoop d inv t n).1.length = n := by
  induction n generalizing inv t with
  | zero => rfl
  | succ n ih => simp [simLoop, ih]

theorem simLoop_snd_le (d : ℕ → α) (inv : α) (t n : ℕ) :
    (simLoop d inv t n).2 ≤ n := by
  induction n generalizing inv t with
  | zero => exact le_refl 0
  | succ n ih =>
    simp only [simLoop]
    have h1 := simStep_snd_le_one inv (d t)
    have h2 := ih (simStep inv (d t)).1 (t + 1)
    omega

theorem simLoop_mem_nonneg (d : ℕ → α) (inv : α) (t n : ℕ) :
    ∀ x ∈ (simLoop d inv t n).1, 0 ≤ x := by
  induction n generalizing inv t with
  | zero => intro x hx; simp [simLoop] at hx
  | succ n ih =>
    intro x hx
    simp only [simLoop, List.mem_cons] at hx
    rcases hx with h | h
    · exact h ▸ simStep_fst_nonneg inv (d t)
    · exact ih _ _ x h

theorem simLoop_getD_nonneg (d : ℕ → α) (inv : α) (t n i : ℕ) :
    0 ≤ (simLoop d inv t n).1.getD i 0 := by
  by_cases h : i < (simLoop d inv t n).1.length
  · rw [List.getD_eq_getElem _ 0 h]
    exact simLoop_mem_nonneg d inv t n _ (List.getElem_mem h)
  · rw [List.getD_eq_default _ _ (le_of_not_lt h)]

theorem simLoop_zero_inv (d : ℕ → α) (t n : ℕ) :
    simLoop d 0 t n = (List.replicate n 0, n) := by
  induction n generalizing t with
  | zero => rfl
  | succ n ih => simp [simLoop, simStep_zero, ih, List.replicate_succ, Nat.add_comm]

theorem simLoop_getD_head_le (d : ℕ → α) (inv : α) (t n : ℕ) (h : 0 ≤ inv) :
    (simLoop d inv t n).1.getD 0 0 ≤ inv := by
  cases n with
  | zero => exact h
  | succ n => simpa [simLoop] using simStep_fst_le inv (d t) h

theorem simLoop_getD_succ_le (d : ℕ → α) (inv : α) (t n i : ℕ) (h : 0 ≤ inv) :
    (simLoop d inv t n).1.getD (i + 1) 0 ≤ (simLoop d inv t n).1.getD i 0 := by
  induction n generalizing inv t i with
  | zero => simp [simLoop]
  | succ n ih =>
    simp only [simLoop]
    cases i with
    | zero =>
      simpa using simLoop_getD_head_le d _ (t + 1) n (simStep_fst_nonneg inv (d t))
    | succ i =>
      simpa using ih (simStep inv (d t)).1 (t + 1) i (simStep_fst_nonneg inv (d t))

theorem simLoop_getD_antitone (d : ℕ → α) (inv : α) (t n : ℕ) {i j : ℕ}
    (h : 0 ≤ inv) (hij : i ≤ j) :
    (simLoop d inv t n).1.getD j 0 ≤ (simLoop d inv t n).1.getD i 0 := by
  induction j with
  | zero => cases Nat.le_zero.mp hij; exact le_refl _
  | succ j ih =>
    rcases Nat.lt_or_ge i (j + 1) with hlt | hge
    · exact le_trans (simLoop_getD_succ_le d inv t n j h) (ih (Nat.lt_succ_iff.mp hlt))
    · cases Nat.le_antisymm hij hge; exact le_refl _

theorem simLoop_deplete (d : ℕ → α) (inv : α) (t n i : ℕ) (hi : i < n)
    (hz : (simLoop d inv t n).1.getD i 0 = 0)
    (hnz : ∀ u, u < i → (simLoop d inv t n).1.getD u 0 ≠ 0) :
    (simLoop d inv t n).2 = n - i := by
  induction n generalizing inv t i with
  | zero => omega
  | succ n ih =>
    cases i with
    | zero =>
      have hfst : (simStep inv (d t)).1 = 0 := by
        simpa [simLoop] using hz
      have hsnd : (simStep inv (d t)).2 = 1 := by
        rw [simStep_eq] at hfst ⊢
        split at hfst <;> simp_all
      simp only [simLoop, hfst, hsnd, simLoop_zero_inv]
      omega
    | succ i =>
      have hfst : (simStep inv (d t)).1 ≠ 0 := by
        have := hnz 0 (Nat.succ_pos i)
        simpa [simLoop] using this
      have hsnd := simStep_snd_of_fst_ne inv (d t) hfst
      have hz' : (simLoop d (simStep inv (d t)).1 (t + 1) n).1.getD i 0 = 0 := by
        simpa [simLoop] using hz
      have hnz' : ∀ u, u < i →
          (simLoop d (simStep inv (d t)).1 (t + 1) n).1.getD u 0 ≠ 0 := by
        intro u hu
        have := hnz (u + 1) (Nat.succ_lt_succ hu)
        simpa [simLoop] using this
      have := ih (simStep inv (d t)).1 (t + 1) i (by omega) hz' hnz'
      simp only [simLoop, hsnd, this]
      omega

end SimLemmas

/-! ### Helper lemmas about list minimum, maximum, sums and indexing -/

theorem getD_map_range {β : Type} (f : ℕ → β) (d : β) {n t : ℕ} (h : t < n) :
    ((List.range n).map f).getD t d = f t := by
  rw [List.getD_eq_getElem?_getD, List.getElem?_map, List.getElem?_range h]
  rfl

theorem foldl_min_le_init (xs : List ℝ) (a : ℝ) : xs.foldl min a ≤ a := by
  induction xs generalizing a with
  | nil => exact le_refl a
  | cons x xs ih => exact le_trans (ih (min a x)) (min_le_left a x)

theorem foldl_min_le_mem {x : ℝ} {xs : List ℝ} (hx : x ∈ xs) :
    ∀ a : ℝ, xs.foldl min a ≤ x := by
  induction hx with
  | head ys =>
    intro a
    rw [List.foldl_cons]
    exact le_trans (foldl_min_le_init ys (min a x)) (min_le_right a x)
  | tail y hmem ih =>
    intro a
    rw [List.foldl_cons]
    exact ih _

theorem foldl_min_mem (xs : List ℝ) (a : ℝ) :
    xs.foldl min a = a ∨ xs.foldl min a ∈ xs := by
  induction xs generalizing a with
  | nil => exact Or.inl rfl
  | cons x xs ih =>
    rcases ih (min a x) with h | h
    · rcases min_choice a x with h1 | h1
      · exact Or.inl (by rw [List.foldl_cons, h, h1])
      · exact Or.inr (by rw [List.foldl_cons, h, h1]; exact List.mem_cons_self x xs)
    · exact Or.inr (List.mem_cons_of_mem x h)

theorem foldl_max_init_le (xs : List ℝ) (a : ℝ) : a ≤ xs.foldl max a := by
  induction xs generalizing a with
  | nil => exact le_refl a
  | cons x xs ih => exact le_trans (le_max_left a x) (ih (max a x))

theorem mem_le_foldl_max {x : ℝ} {xs : List ℝ} (hx : x ∈ xs) :
    ∀ a : ℝ, x ≤ xs.foldl max a := by
  induction hx with
  | head ys =>
    intro a
    rw [List.foldl_cons]
    exact le_trans (le_max_right a x) (foldl_max_init_le ys (max a x))
  | tail y hmem ih =>
    intro a
    rw [List.foldl_cons]
    exact ih _

theorem foldl_max_mem (xs : List ℝ) (a : ℝ) :
    xs.foldl max a = a ∨ xs.foldl max a ∈ xs := by
  induction xs generalizing a with
  | nil => exact Or.inl rfl
  | cons x xs ih =>
    rcases ih (max a x) with h | h
    · rcases max_choice a x with h1 | h1
      · exact Or.inl (by rw [List.foldl_cons, h, h1])
      · exact Or.inr (by rw [List.foldl_cons, h, h1]; exact List.mem_cons_self x xs)
    · exact Or.inr (List.mem_cons_of_mem x h)

theorem listMin_le_mem (xs : List ℝ) (x : ℝ) (hx : x ∈ xs) : listMin xs ≤ x := by
  cases xs with
  | nil => cases hx
  | cons y ys =>
    rcases List.mem_cons.mp hx with h | h
    · exact h ▸ foldl_min_le_init ys y
    · exact foldl_min_le_mem h y

theorem mem_le_listMax (xs : List ℝ) (x : ℝ) (hx : x ∈ xs) : x ≤ listMax xs := by
  cases xs with
  | nil => cases hx
  | cons y ys =>
    rcases List.mem_cons.mp hx with h | h
    · exact h ▸ foldl_max_init_le ys y
    · exact mem_le_foldl_max h y

theorem listMin_mem (xs : List ℝ) (hne : xs ≠ []) : listMin xs ∈ xs := by
  cases xs with
  | nil => cases hne rfl
  | cons y ys =>
    rcases foldl_min_mem ys y with h | h
    · exact List.mem_cons.mpr (Or.inl (by rw [listMin] at *; exact h))
    · exact List.mem_cons_of_mem y (by rw [listMin]; exact h)

theorem listMax_mem (xs : List ℝ) (hne : xs ≠ []) : listMax xs ∈ xs := by
  cases xs with
  | nil => cases hne rfl
  | cons y ys =>
    rcases foldl_max_mem ys y with h | h
    · exact List.mem_cons.mpr (Or.inl (by rw [listMax] at *; exact h))
    · exact List.mem_cons_of_mem y (by rw [listMax]; exact h)

theorem listMin_le_sum_div (xs : List ℝ) (hne : xs ≠ []) :
    listMin xs ≤ xs.sum / (xs.length : ℝ) := by
  have hl : 0 < (xs.length : ℝ) := by
    exact_mod_cast List.length_pos.mpr hne
  rw [le_div_iff₀ hl]
  have h := List.card_nsmul_le_sum xs (listMin xs) (fun x hx => listMin_le_mem xs x hx)
  rw [nsmul_eq_mul] at h
  linarith

theorem sum_div_le_listMax (xs : List ℝ) (hne : xs ≠ []) :
    xs.sum / (xs.length : ℝ) ≤ listMax xs := by
  have hl : 0 < (xs.length : ℝ) := by
    exact_mod_cast List.length_pos.mpr hne
  rw [div_le_iff₀ hl]
  have h := List.sum_le_card_nsmul xs (listMax xs) (fun x hx => mem_le_listMax xs x hx)
  rw [nsmul_eq_mul] at h
  linarith

theorem mcPaths_length (s : Scenario) (draws : ℕ → ℕ → ℝ) :
    (mcPaths s draws).length = num_runs := by
  simp [mcPaths]

theorem levels_at_length (s : Scenario) (draws : ℕ → ℕ → ℝ) (t : ℕ) :
    (levels_at s draws t).length = num_runs := by
  simp [levels_at, mcPaths]

theorem levels_at_ne_nil (s : Scenario) (draws : ℕ → ℕ → ℝ) (t : ℕ) :
    levels_at s draws t ≠ [] := by
  intro h
  have := levels_at_length s draws t
  rw [h] at this
  simp [num_runs] at this

theorem levels_at_nonneg (s : Scenario) (draws : ℕ → ℕ → ℝ) (t : ℕ) :
    ∀ x ∈ levels_at s draws t, 0 ≤ x := by
  intro x hx
  rcases List.mem_map.mp hx with ⟨p, hp, rfl⟩
  rcases List.mem_map.mp hp with ⟨r, _, rfl⟩
  exact simLoop_getD_nonneg _ _ _ _ _

/-! ### Concrete instantiation data -/

/-- A concrete scenario (the spec §8 example values) used to instantiate
theorems that carry hypotheses. -/
def sampleScenario : Scenario :=
  { demand := 100, lead_time := 4, cost := 5 }

theorem z_map_get_pos (x : ℚ) : 0 < z_map_get x := by
  unfold z_map_get
  split_ifs <;> norm_num

/-! ### Claims -/

/-- C1, counterexample: the spec's §3 field list includes `inventory_paths`,
but the dict returned by the handler has no `inventory_paths` key. -/
theorem c1_counterexample :
    "inventory_paths" ∈ spec_result_fields ∧ "inventory_paths" ∉ response_keys := by
  decide

/-- C1 (amended): the response contains exactly the SimulationResult fields
of §3 except `inventory_paths`; the sampled subset of up to 20 full paths is
computed by the handler but omitted from the response. -/
theorem c1_response_fields :
    response_keys.Perm (spec_result_fields.filter (fun k => k ≠ "inventory_paths")) ∧
    "inventory_paths" ∉ response_keys ∧
    ∀ (s : Scenario) (draws : ℕ → ℕ → ℝ), (inventory_paths s draws).length ≤ 20 := by
  refine ⟨by decide, by decide, ?_⟩
  intro s draws
  rw [inventory_paths, List.length_take]
  exact min_le_left _ _

/-- C6: the forecast has exactly 12 entries and
`forecast[t] = round(demand * (1 + growth * t), 2)` where growth is `0.02`
for (case-insensitively) "optimistic", `-0.02` for "pessimistic", `0`
otherwise, unrecognized types included. -/
theorem c6_forecast_formula (s : Scenario) (t : ℕ) (ht : t < 12) :
    (forecast s).length = 12 ∧
    (forecast s).getD t 0 =
      roundTo 2 ((s.demand : ℚ) * (1 +
        (if s.scenario_type.toLower = "optimistic" then 0.02
          else if s.scenario_type.toLower = "pessimistic" then -0.02
          else 0) * (t : ℚ))) := by
  have hg : growth s =
      (if s.scenario_type.toLower = "optimistic" then (0.02 : ℚ)
        else if s.scenario_type.toLower = "pessimistic" then -0.02
        else 0) := by
    by_cases h2 : s.scenario_type.toLower = "optimistic"
    · have h1 : s.scenario_type.toLower ≠ "pessimistic" := by
        rw [h2]; decide
      simp [growth, h1, h2]
    · by_cases h1 : s.scenario_type.toLower = "pessimistic" <;>
        (simp [growth, h1, h2]; try norm_num)
  constructor
  · simp [forecast, horizon]
  · rw [forecast, getD_map_range _ _ (show t < horizon from ht), hg]

/-- C6 witness at a concrete scenario and period. -/
theorem c6_forecast_formula_witness :
    (forecast sampleScenario).length = 12 ∧
    (forecast sampleScenario).getD 3 0 =
      roundTo 2 ((sampleScenario.demand : ℚ) * (1 +
        (if sampleScenario.scenario_type.toLower = "optimistic" then 0.02
          else if sampleScenario.scenario_type.toLower = "pessimistic" then -0.02
          else 0) * ((3 : ℕ) : ℚ))) :=
  c6_forecast_formula sampleScenario 3 (by decide)

/-- C7: `safety_stock = z * demand_std * sqrt(max(lead_time, 1))` where `z`
comes from the table `{0.90→1.28, 0.95→1.65, 0.97→1.88, 0.99→2.33}` keyed by
`service_target` rounded to 2 decimals, default `1.65`; any target rounding
to `0.95` yields `z = 1.65`. -/
theorem c7_safety_stock_zscore (s : Scenario) (q : ℚ) :
    safety_stock s =
      ((z_map_get (roundTo 2 s.service_target) : ℚ) : ℝ) * (s.demand_std : ℝ) *
        Real.sqrt (max (s.lead_time : ℝ) 1) ∧
    (roundTo 2 q = 0.90 → z_map_get (roundTo 2 q) = 1.28) ∧
    (roundTo 2 q = 0.97 → z_map_get (roundTo 2 q) = 1.88) ∧
    (roundTo 2 q = 0.99 → z_map_get (roundTo 2 q) = 2.33) ∧
    (roundTo 2 q ≠ 0.90 ∧ roundTo 2 q ≠ 0.95 ∧ roundTo 2 q ≠ 0.97 ∧ roundTo 2 q ≠ 0.99 →
      z_map_get (roundTo 2 q) = 1.65) ∧
    (roundTo 2 q = 0.95 → z_of { s with service_target := q } = 1.65) := by
  refine ⟨?_, ?_, ?_, ?_, ?_, ?_⟩
  · have hc : ((max s.lead_time 1 : ℤ) : ℝ) = max (s.lead_time : ℝ) 1 := by
      push_cast
      rfl
    rw [safety_stock, z_of, hc]
  · intro h; norm_num [z_map_get, h]
  · intro h; norm_num [z_map_get, h]
  · intro h; norm_num [z_map_get, h]
  · rintro ⟨h1, h2, h3, h4⟩; simp [z_map_get, h1, h2, h3, h4]
  · intro h; norm_num [z_of, z_map_get, h]

/-- C7 witness: `service_target = 0.9499999` rounds to `0.95`, so `z = 1.65`. -/
theorem c7_safety_stock_zscore_witness :
    z_of { sampleScenario with service_target := 0.9499999 } = 1.65 :=
  (c7_safety_stock_zscore sampleScenario 0.9499999).2.2.2.2.2
    (by norm_num [roundTo, round_eq])

/-- C8: on the documented ranges every guard holds: the reorder-point divisor
`max(lead_time, 1)` is positive, the EOQ denominator is floored at a positive
epsilon, both sqrt arguments are non-negative (hence `eoq ≥ 0` and
`safety_stock ≥ 0`), and unrecognized scenario types / service targets fall
back to the defaults `0.95` / `1.65` instead of failing. -/
theorem c8_defensive_guards (s : Scenario)
    (hd : 0 ≤ s.demand) (hoc : 0 < s.ordering_cost) (hhc : 0 < s.holding_cost)
    (hstd : 0 ≤ s.demand_std) :
    (0 : ℤ) < max s.lead_time 1 ∧
    (0 : ℚ) < max s.holding_cost 0.0001 ∧
    0 ≤ eoq_radicand s ∧
    (0 : ℤ) ≤ max s.lead_time 1 ∧
    0 ≤ eoq s ∧
    0 ≤ safety_stock s ∧
    (∀ ty : String, ty ≠ "optimistic" → ty ≠ "base" → ty ≠ "pessimistic" →
      service_map_get ty = 0.95) ∧
    (∀ q : ℚ, roundTo 2 q ≠ 0.90 → roundTo 2 q ≠ 0.95 → roundTo 2 q ≠ 0.97 →
      roundTo 2 q ≠ 0.99 → z_map_get (roundTo 2 q) = 1.65) := by
  refine ⟨?_, ?_, ?_, ?_, ?_, ?_, ?_, ?_⟩
  · exact lt_of_lt_of_le one_pos (le_max_right _ _)
  · exact lt_max_of_lt_left hhc
  · rw [eoq_radicand]
    apply div_nonneg
    · exact mul_nonneg (mul_nonneg (by norm_num) (by exact_mod_cast hd)) (le_of_lt hoc)
    · exact le_of_lt (lt_of_lt_of_le (by norm_num) (le_max_right _ _))
  · exact le_trans zero_le_one (le_max_right _ _)
  · exact Real.sqrt_nonneg _
  · refine mul_nonneg (mul_nonneg ?_ ?_) (Real.sqrt_nonneg _)
    · exact_mod_cast le_of_lt (z_map_get_pos _)
    · exact_mod_cast hstd
  · intro ty h1 h2 h3; simp [service_map_get, h1, h2, h3]
  · intro q h1 h2 h3 h4; simp [z_map_get, h1, h2, h3, h4]

/-- C8 witness at the spec §8 example scenario. -/
theorem c8_defensive_guards_witness :
    (0 : ℤ) ≤ sampleScenario.demand ∧ 0 ≤ eoq sampleScenario ∧
    0 ≤ safety_stock sampleScenario := by
  have h := c8_defensive_guards sampleScenario (by decide)
    (by norm_num [sampleScenario]) (by norm_num [sampleScenario])
    (by norm_num [sampleScenario])
  exact ⟨by decide, h.2.2.2.2.1, h.2.2.2.2.2.1⟩

/-- C3: for every period `t` of the horizon, the aggregated bands satisfy
`inventory_lower[t] ≤ inventory_avg[t] ≤ inventory_upper[t]`, where the
average is the arithmetic mean and the bands the min/max over all 300 runs. -/
theorem c3_band_ordering (s : Scenario) (draws : ℕ → ℕ → ℝ) (t : ℕ) (ht : t < 12) :
    (min_levels s draws).getD t 0 ≤ (avg_levels s draws).getD t 0 ∧
    (avg_levels s draws).getD t 0 ≤ (max_levels s draws).getD t 0 := by
  have ht' : t < horizon := ht
  have hmin : (min_levels s draws).getD t 0 = listMin (levels_at s draws t) := by
    rw [min_levels, getD_map_range _ _ ht']
  have hmax : (max_levels s draws).getD t 0 = listMax (levels_at s draws t) := by
    rw [max_levels, getD_map_range _ _ ht']
  have havg : (avg_levels s draws).getD t 0 =
      (levels_at s draws t).sum / (num_runs : ℝ) := by
    rw [avg_levels, sum_levels, List.map_map, getD_map_range _ _ ht']
    rfl
  have hlen : ((levels_at s draws t).length : ℝ) = (num_runs : ℝ) := by
    rw [levels_at_length]
  have hne := levels_at_ne_nil s draws t
  constructor
  · rw [hmin, havg, ← hlen]
    exact listMin_le_sum_div _ hne
  · rw [hmax, havg, ← hlen]
    exact sum_div_le_listMax _ hne

/-- C3 witness at a concrete scenario, draw oracle and period. -/
theorem c3_band_ordering_witness :
    (min_levels sampleScenario (fun _ _ => 0)).getD 5 0 ≤
      (avg_levels sampleScenario (fun _ _ => 0)).getD 5 0 ∧
    (avg_levels sampleScenario (fun _ _ => 0)).getD 5 0 ≤
      (max_levels sampleScenario (fun _ _ => 0)).getD 5 0 :=
  c3_band_ordering sampleScenario (fun _ _ => 0) 5 (by decide)

/-- C4: every recorded inventory level is `≥ 0` — in every run's path, in the
retained `inventory_paths`, and in all three aggregate bands — and whenever
the post-subtraction inventory is `≤ 0` the recorded value is exactly `0`. -/
theorem c4_inventory_nonneg (s : Scenario) (draws : ℕ → ℕ → ℝ) :
    (∀ p ∈ mcPaths s draws, ∀ x ∈ p, 0 ≤ x) ∧
    (∀ p ∈ inventory_paths s draws, ∀ x ∈ p, 0 ≤ x) ∧
    (∀ t : ℕ, 0 ≤ (min_levels s draws).getD t 0 ∧ 0 ≤ (avg_levels s draws).getD t 0 ∧
      0 ≤ (max_levels s draws).getD t 0) ∧
    (∀ inv d : ℝ, inv - max 0 d ≤ 0 → (simStep inv d).1 = 0) := by
  have hpaths : ∀ p ∈ mcPaths s draws, ∀ x ∈ p, 0 ≤ x := by
    intro p hp x hx
    rcases List.mem_map.mp hp with ⟨r, _, rfl⟩
    exact simLoop_mem_nonneg _ _ _ _ x hx
  refine ⟨hpaths, ?_, ?_, ?_⟩
  · intro p hp x hx
    exact hpaths p (List.take_subset _ _ hp) x hx
  · intro t
    by_cases ht : t < horizon
    · have hne := levels_at_ne_nil s draws t
      refine ⟨?_, ?_, ?_⟩
      · rw [min_levels, getD_map_range _ _ ht]
        exact levels_at_nonneg s draws t _ (listMin_mem _ hne)
      · rw [avg_levels, sum_levels, List.map_map, getD_map_range _ _ ht]
        show 0 ≤ (levels_at s draws t).sum / (num_runs : ℝ)
        exact div_nonneg (List.sum_nonneg (levels_at_nonneg s draws t)) (by norm_num)
      · rw [max_levels, getD_map_range _ _ ht]
        exact levels_at_nonneg s draws t _ (listMax_mem _ hne)
    · have ht' : horizon ≤ t := le_of_not_lt ht
      refine ⟨?_, ?_, ?_⟩
      · rw [List.getD_eq_default _ _ (by simpa [min_levels] using ht')]
      · rw [List.getD_eq_default _ _ (by simpa [avg_levels, sum_levels] using ht')]
      · rw [List.getD_eq_default _ _ (by simpa [max_levels] using ht')]
  · exact fun inv d h => simStep_fst_of_nonpos inv d h

/-- C4 witness: a depleting step is clamped to exactly 0, and a concrete
lower-band entry is non-negative. -/
theorem c4_inventory_nonneg_witness :
    (10 : ℝ) - max 0 100 ≤ 0 ∧ (simStep (10 : ℝ) 100).1 = 0 ∧
    0 ≤ (min_levels sampleScenario (fun _ _ => 0)).getD 0 0 :=
  ⟨by norm_num,
    (c4_inventory_nonneg sampleScenario (fun _ _ => 0)).2.2.2 10 100 (by norm_num),
    ((c4_inventory_nonneg sampleScenario (fun _ _ => 0)).2.2.1 0).1⟩

/-- C5: `stockout_probability` is the total stockout count over all
run-by-period cells divided by `num_runs * horizon`, each cell contributes at
most one event, and the value lies in `[0, 1]`. -/
theorem c5_stockout_probability_def (s : Scenario) (draws : ℕ → ℕ → ℝ) :
    stockout_probability s draws =
      (stockout_events s draws : ℝ) / ((num_runs : ℝ) * (horizon : ℝ)) ∧
    stockout_events s draws ≤ num_runs * horizon ∧
    (∀ inv d : ℝ, (simStep inv d).2 ≤ 1) ∧
    0 ≤ stockout_probability s draws ∧
    stockout_probability s draws ≤ 1 := by
  have hmax : (max total_points 1 : ℕ) = num_runs * horizon := by
    norm_num [total_points, num_runs, horizon]
  have hev : stockout_events s draws ≤ num_runs * horizon := by
    rw [stockout_events]
    have hb : ∀ x ∈ (List.range num_runs).map (fun r => (runPath s draws r).2),
        x ≤ horizon := by
      intro x hx
      rcases List.mem_map.mp hx with ⟨r, _, rfl⟩
      exact simLoop_snd_le _ _ _ _
    have h := List.sum_le_card_nsmul _ horizon hb
    simpa [smul_eq_mul] using h
  refine ⟨?_, hev, fun inv d => simStep_snd_le_one inv d, ?_, ?_⟩
  · rw [stockout_probability, hmax]
    push_cast
    rfl
  · exact div_nonneg (Nat.cast_nonneg _) (Nat.cast_nonneg _)
  · rw [stockout_probability]
    have h1 : stockout_events s draws ≤ max total_points 1 :=
      le_trans hev (le_max_left _ _)
    exact div_le_one_of_le₀ (Nat.cast_le.mpr h1) (Nat.cast_nonneg _)

/-- C2 (amended): the `risk_level` label is consistent with the §4.5
thresholds applied to the pre-rounding stockout probability
(`stockout_events / 3600`); the probability field of the response is that
value rounded to 3 decimals and can land on the other side of a threshold. -/
theorem c2_risk_consistency (s : Scenario) (draws : ℕ → ℕ → ℝ) :
    ((run_simulation s draws).risk_level = "low" ↔
      stockout_probability s draws < 0.1) ∧
    ((run_simulation s draws).risk_level = "medium" ↔
      0.1 ≤ stockout_probability s draws ∧ stockout_probability s draws < 0.3) ∧
    ((run_simulation s draws).risk_level = "high" ↔
      0.3 ≤ stockout_probability s draws) := by
  have hr : (run_simulation s draws).risk_level = risk_level s draws := rfl
  rw [hr, risk_level]
  by_cases h1 : stockout_probability s draws < 0.1
  · rw [if_pos h1]
    exact ⟨iff_of_true rfl h1,
      iff_of_false (by decide) (fun hc => absurd h1 (not_lt.mpr hc.1)),
      iff_of_false (by decide)
        (fun hc => absurd h1 (not_lt.mpr (le_trans (by norm_num) hc)))⟩
  · by_cases h2 : stockout_probability s draws < 0.3
    · rw [if_neg h1, if_pos h2]
      exact ⟨iff_of_false (by decide) h1,
        iff_of_true rfl ⟨not_lt.mp h1, h2⟩,
        iff_of_false (by decide) (fun hc => absurd h2 (not_lt.mpr hc))⟩
    · rw [if_neg h1, if_neg h2]
      exact ⟨iff_of_false (by decide) h1,
        iff_of_false (by decide) (fun hc => h2 hc.2),
        iff_of_true rfl (not_lt.mp h2)⟩

theorem starting_inventory_nonneg (s : Scenario)
    (hd : 0 ≤ s.demand) (hstd : 0 ≤ s.demand_std) :
    0 ≤ starting_inventory s := by
  rw [starting_inventory]
  have h1 : (0 : ℝ) ≤ (s.demand : ℝ) := by exact_mod_cast hd
  have h2 : 0 ≤ safety_stock s := by
    rw [safety_stock]
    refine mul_nonneg (mul_nonneg ?_ ?_) (Real.sqrt_nonneg _)
    · exact_mod_cast le_of_lt (z_map_get_pos _)
    · exact_mod_cast hstd
  linarith

/-- C9: with non-negative demand and demand variability, every simulated
trajectory starts at or below `demand + safety_stock` and is non-increasing,
the three aggregate bands are non-increasing, and a run whose inventory
reaches 0 stays at 0 afterwards. -/
theorem c9_monotone_depletion (s : Scenario) (draws : ℕ → ℕ → ℝ)
    (hd : 0 ≤ s.demand) (hstd : 0 ≤ s.demand_std) :
    (∀ r : ℕ, (runPath s draws r).1.getD 0 0 ≤ (s.demand : ℝ) + safety_stock s) ∧
    (∀ r t : ℕ,
      (runPath s draws r).1.getD (t + 1) 0 ≤ (runPath s draws r).1.getD t 0) ∧
    (∀ t : ℕ, t < 11 →
      (avg_levels s draws).getD (t + 1) 0 ≤ (avg_levels s draws).getD t 0 ∧
      (min_levels s draws).getD (t + 1) 0 ≤ (min_levels s draws).getD t 0 ∧
      (max_levels s draws).getD (t + 1) 0 ≤ (max_levels s draws).getD t 0) ∧
    (∀ r t u : ℕ, t ≤ u → (runPath s draws r).1.getD t 0 = 0 →
      (runPath s draws r).1.getD u 0 = 0) := by
  have hstart := starting_inventory_nonneg s hd hstd
  have hmono : ∀ p ∈ mcPaths s draws, ∀ t : ℕ, p.getD (t + 1) 0 ≤ p.getD t 0 := by
    intro p hp t
    rcases List.mem_map.mp hp with ⟨r, _, rfl⟩
    exact simLoop_getD_succ_le _ _ _ _ _ hstart
  refine ⟨?_, ?_, ?_, ?_⟩
  · intro r
    exact simLoop_getD_head_le _ _ _ _ hstart
  · intro r t
    exact simLoop_getD_succ_le _ _ _ _ _ hstart
  · intro t ht
    have ht0 : t < horizon := by simp only [horizon]; omega
    have ht1 : t + 1 < horizon := by simp only [horizon]; omega
    refine ⟨?_, ?_, ?_⟩
    · rw [avg_levels, sum_levels, List.map_map, getD_map_range _ _ ht1,
        getD_map_range _ _ ht0]
      show (levels_at s draws (t + 1)).sum / (num_runs : ℝ) ≤
        (levels_at s draws t).sum / (num_runs : ℝ)
      have hsum : (levels_at s draws (t + 1)).sum ≤ (levels_at s draws t).sum := by
        rw [levels_at, levels_at]
        exact List.sum_le_sum (fun p hp => hmono p hp t)
      gcongr
    · rw [min_levels, getD_map_range _ _ ht1, getD_map_range _ _ ht0]
      rcases List.mem_map.mp (listMin_mem _ (levels_at_ne_nil s draws t)) with
        ⟨p, hp, hpeq⟩
      calc listMin (levels_at s draws (t + 1)) ≤ p.getD (t + 1) 0 :=
            listMin_le_mem _ _ (List.mem_map.mpr ⟨p, hp, rfl⟩)
        _ ≤ p.getD t 0 := hmono p hp t
        _ = listMin (levels_at s draws t) := hpeq
    · rw [max_levels, getD_map_range _ _ ht1, getD_map_range _ _ ht0]
      rcases List.mem_map.mp (listMax_mem _ (levels_at_ne_nil s draws (t + 1))) with
        ⟨q, hq, hqeq⟩
      calc listMax (levels_at s draws (t + 1)) = q.getD (t + 1) 0 := hqeq.symm
        _ ≤ q.getD t 0 := hmono q hq t
        _ ≤ listMax (levels_at s draws t) :=
            mem_le_listMax _ _ (List.mem_map.mpr ⟨q, hq, rfl⟩)
  · intro r t u htu hz
    have h1 : (runPath s draws r).1.getD u 0 ≤ (runPath s draws r).1.getD t 0 :=
      simLoop_getD_antitone _ _ _ _ hstart htu
    have h2 : 0 ≤ (runPath s draws r).1.getD u 0 := simLoop_getD_nonneg _ _ _ _ _
    rw [hz] at h1
    exact le_antisymm h1 h2

/-- C9 witness at a concrete scenario, run and period. -/
theorem c9_monotone_depletion_witness :
    (runPath sampleScenario (fun _ _ => 0) 0).1.getD 1 0 ≤
      (runPath sampleScenario (fun _ _ => 0) 0).1.getD 0 0 :=
  (c9_monotone_depletion sampleScenario (fun _ _ => 0) (by decide)
    (by norm_num [sampleScenario])).2.1 0 0

theorem simLoop_getD_zero {α : Type} [LinearOrderedRing α]
    (d : ℕ → α) (inv : α) (t n : ℕ) (hn : 0 < n) :
    (simLoop d inv t n).1.getD 0 0 = (simStep inv (d t)).1 := by
  cases n with
  | zero => omega
  | succ n => simp [simLoop]

/-- A scenario with deterministic demand (`demand_std = 0`) whose runs
deplete immediately under large draws; used to instantiate C10. -/
def depleteScenario : Scenario :=
  { demand := 10, lead_time := 1, cost := 1, demand_std := 0 }

/-- C10: a stockout event is recorded exactly when the post-subtraction
inventory is `≤ 0`, including a zero inventory meeting a zero draw; from zero
inventory every remaining period records one event; and a run whose first
zero occurs at period `i` contributes exactly `12 - i` stockout events. -/
theorem c10_stockout_counting (s : Scenario) (draws : ℕ → ℕ → ℝ) (r i : ℕ)
    (hi : i < 12)
    (hz : (runPath s draws r).1.getD i 0 = 0)
    (hnz : ∀ u, u < i → (runPath s draws r).1.getD u 0 ≠ 0) :
    (∀ inv d : ℝ, (simStep inv d).2 = 1 ↔ inv - max 0 d ≤ 0) ∧
    (simStep (0 : ℝ) 0).2 = 1 ∧
    (∀ t0 m : ℕ, simLoop (draws r) (0 : ℝ) t0 m = (List.replicate m 0, m)) ∧
    (runPath s draws r).2 = 12 - i := by
  refine ⟨fun inv d => simStep_snd_eq_one_iff inv d, ?_,
    fun t0 m => simLoop_zero_inv _ _ _, ?_⟩
  · rw [simStep_snd_eq_one_iff]
    norm_num
  · exact simLoop_deplete (draws r) (starting_inventory s) 0 12 i hi hz hnz

/-- C10 witness: a run that depletes in its first period records 12 events. -/
theorem c10_stockout_counting_witness :
    (runPath depleteScenario (fun _ _ => 100) 0).2 = 12 - 0 := by
  have hstart : starting_inventory depleteScenario = 10 := by
    norm_num [starting_inventory, safety_stock, depleteScenario]
  have hz : (runPath depleteScenario (fun _ _ => (100 : ℝ)) 0).1.getD 0 0 = 0 := by
    rw [runPath, hstart, simLoop_getD_zero _ _ _ _ (by norm_num [horizon])]
    apply simStep_fst_of_nonpos
    norm_num
  exact (c10_stockout_counting depleteScenario (fun _ _ => 100) 0 0 (by decide) hz
    (fun u hu => absurd hu (Nat.not_lt_zero u))).2.2.2

/-! ### The C2 counterexample: rounding crosses the low/medium threshold -/

/-- The counterexample scenario: `demand_std = 20 > 0`, so the per-cell
`random.gauss(10, 20)` draws have full support on ℝ and every finite draw
sequence is a possible execution.  With the default `service_target = 0.95`
the z-score is `1.65`, so `safety_stock = 1.65 * 20 * sqrt(1) = 33` and the
starting inventory is `10 + 33 = 43`. -/
def cexScenario : Scenario :=
  { demand := 10, lead_time := 1, cost := 1, demand_std := 20 }

/-- Integer-valued draw oracle: runs 0–28 draw 100 at period 0 and deplete
there (12 stockout cells each), run 29 draws 100 at period 1 and depletes
there (11 cells), runs 30–299 always draw 0 and never deplete;
29 * 12 + 11 = 359 stockout cells in total. -/
def cexDrawsZ (r : ℕ) : ℕ → ℤ := fun t =>
  if r < 29 ∧ t = 0 then 100 else if r = 29 ∧ t = 1 then 100 else 0

/-- The same draws as real gauss samples; all values (100 and 0) lie in the
support of a normal distribution with standard deviation 20. -/
noncomputable def cexDraws (r : ℕ) : ℕ → ℝ := fun t => ((cexDrawsZ r t : ℤ) : ℝ)

theorem simStep_intCast (inv d : ℤ) :
    simStep ((inv : ℤ) : ℝ) ((d : ℤ) : ℝ) =
      (((((simStep inv d).1 : ℤ)) : ℝ), (simStep inv d).2) := by
  have hc : ((inv : ℤ) : ℝ) - max 0 ((d : ℤ) : ℝ) = ((inv - max 0 d : ℤ) : ℝ) := by
    push_cast
    ring
  rw [simStep_eq, simStep_eq, hc]
  by_cases h : inv - max 0 d ≤ 0
  · rw [if_pos h, if_pos (by exact_mod_cast h)]
    simp
  · rw [if_neg h, if_neg (by exact_mod_cast h)]

theorem simLoop_intCast (dz : ℕ → ℤ) (inv : ℤ) (t n : ℕ) :
    simLoop (fun k => ((dz k : ℤ) : ℝ)) ((inv : ℤ) : ℝ) t n =
      ((simLoop dz inv t n).1.map (fun x : ℤ => (x : ℝ)),
        (simLoop dz inv t n).2) := by
  induction n generalizing inv t with
  | zero => simp [simLoop]
  | succ n ih => simp [simLoop, simStep_intCast, ih]

theorem cex_start : starting_inventory cexScenario = ((43 : ℤ) : ℝ) := by
  have hz : z_of cexScenario = 1.65 := by
    norm_num [z_of, z_map_get, roundTo, round_eq, cexScenario]
  have hsq : Real.sqrt (((max cexScenario.lead_time 1 : ℤ) : ℝ)) = 1 := by
    norm_num [cexScenario]
  rw [starting_inventory, safety_stock, hz, hsq]
  norm_num [cexScenario]

set_option maxRecDepth 100000 in
theorem cex_events : stockout_events cexScenario cexDraws = 359 := by
  have hrun : ∀ r : ℕ, (runPath cexScenario cexDraws r).2 =
      (simLoop (cexDrawsZ r) (43 : ℤ) 0 horizon).2 := by
    intro r
    rw [runPath, cex_start]
    show (simLoop (fun k => ((cexDrawsZ r k : ℤ) : ℝ)) ((43 : ℤ) : ℝ) 0 horizon).2 = _
    rw [simLoop_intCast]
  rw [stockout_events]
  rw [List.map_congr_left (fun r _ => hrun r)]
  decide

theorem cex_prob :
    stockout_probability cexScenario cexDraws = 359 / 3600 := by
  rw [stockout_probability, cex_events]
  norm_num [total_points, num_runs, horizon]

/-- C2, counterexample: with these draws the handler labels the risk `"low"`
(the unrounded probability is 359/3600 < 0.1), yet the probability returned
in the response is rounded to exactly `0.1`, so `"low"` is not equivalent to
`returned value < 0.1`. -/
theorem c2_counterexample :
    (run_simulation cexScenario cexDraws).risk_level = "low" ∧
    (run_simulation cexScenario cexDraws).stockout_probability = 0.1 ∧
    ¬ ((run_simulation cexScenario cexDraws).stockout_probability < 0.1) := by
  have hp := cex_prob
  have hlow : risk_level cexScenario cexDraws = "low" := by
    rw [risk_level, hp, if_pos (by norm_num)]
  have hround : roundToR 3 (stockout_probability cexScenario cexDraws) = 0.1 := by
    rw [hp, roundToR]
    have h1 : (359 / 3600 : ℝ) * 10 ^ 3 = ((1795 / 18 : ℚ) : ℝ) := by
      push_cast
      norm_num
    rw [h1, Rat.round_cast]
    norm_num [round_eq]
  refine ⟨hlow, ?_, ?_⟩
  · show roundToR 3 (stockout_probability cexScenario cexDraws) = 0.1
    exact hround
  · show ¬ (roundToR 3 (stockout_probability cexScenario cexDraws) < 0.1)
    rw [hround]
    exact lt_irrefl _
